import Mathlib

/-!
Verification development for the `crawl` repository (a bounded, depth-limited,
single-host web crawler written in Go, `src/crawl.go`).

The Go source is shallowly embedded below.  Strings are modelled as `List Char`
(the source only manipulates ASCII bytes in the relevant code paths), Go `int`
as `Int`, the `Counter` map as an association list, and the HTTP client as an
explicit fetch oracle `String → Except String (List Char)`.  Loops with index
arithmetic are embedded as structurally recursive functions driven by an
explicit fuel argument that is always instantiated large enough to cover the
whole input, so that every definition is executable and every concrete claim
can be settled by evaluation.
-/

namespace Crawl

/-- Embeds the Go struct `Count` (`src/crawl.go`): word and number count of a
URL.  Go `int` fields are modelled as `Int` (the code can in fact drive
`Words` below zero, see `countWordsAndNumbers`). -/
structure Count where
  words : Int
  numbers : Int
deriving DecidableEq, Repr

/-- Embeds the crawler options struct `Opts` (`src/crawl.go`).  `limit` is the
inter-request delay in milliseconds; it and `verbose`/`parallel` do not affect
any data computation modelled here but are kept for completeness. -/
structure Opts where
  parallel : Int
  maxDepth : Int
  verbose : Bool
  limit : Int
deriving DecidableEq, Repr

/-- Embeds `Opts.ExceedsMaxDepth`: `return o.MaxDepth < depth`. -/
def Opts.ExceedsMaxDepth (o : Opts) (depth : Int) : Bool :=
  o.maxDepth < depth

/-- The crawler's `Counter map[string]*Count`, modelled as an association
list with at most one binding per key. -/
def VisitedMap := List (String × Count)
deriving DecidableEq, Repr

/-- Embeds `Crawler.readMap`: one mutex-protected read `c.Counter[key]`.
Returns the stored count when present (`ok = isSome`). -/
def readMap (m : VisitedMap) (key : String) : Option Count :=
  match m with
  | [] => none
  | (k, v) :: rest => if k = key then some v else readMap rest key

/-- Embeds `Crawler.writeMap`: one mutex-protected write
`c.Counter[key] = val` (insert-or-replace). -/
def writeMap (m : VisitedMap) (key : String) (val : Count) : VisitedMap :=
  match m with
  | [] => [(key, val)]
  | (k, v) :: rest =>
    if k = key then (key, val) :: rest else (k, v) :: writeMap rest key val

/-- Model of Go `unicode.IsSpace` restricted to the ASCII space characters
(the only ones produced by the code paths under study). -/
def isGoSpace (c : Char) : Bool :=
  c = ' ' || c = '\t' || c = '\n' || c = '\x0b' || c = '\x0c' || c = '\r'

/-- Model of Go `strings.TrimSpace`: drop leading and trailing space
characters. -/
def goTrimSpace (cs : List Char) : List Char :=
  ((cs.dropWhile isGoSpace).reverse.dropWhile isGoSpace).reverse

/-- Model of Go `strings.Split(s, sep)` for a one-character separator:
the empty input yields one empty field, and `n` separators yield `n + 1`
fields. -/
def splitOnCharL (sep : Char) : List Char → List (List Char)
  | [] => [[]]
  | c :: cs =>
    let r := splitOnCharL sep cs
    if c = sep then
      [] :: r
    else
      match r with
      | [] => [[c]]
      | h :: t => (c :: h) :: t

/-- ASCII decimal digit test. -/
def isDigit (c : Char) : Bool :=
  '0' ≤ c && c ≤ '9'

/-- Lower-case an ASCII letter (helper for the case-insensitive special
forms of `strconv.ParseFloat`). -/
def asciiLower (c : Char) : Char :=
  if 'A' ≤ c && c ≤ 'Z' then Char.ofNat (c.toNat + 32) else c

/-- Exponent part of a decimal floating-point literal: optional sign then at
least one digit. -/
def floatExpOk (r : List Char) : Bool :=
  let r2 := match r with
    | '+' :: t => t
    | '-' :: t => t
    | t => t
  !r2.isEmpty && r2.all isDigit

/-- Decimal mantissa-and-exponent part of a floating-point literal:
`digits [ '.' digits ] [ (e|E) exp ]` with at least one mantissa digit. -/
def decimalFloatOk (body : List Char) : Bool :=
  let intPart := body.takeWhile isDigit
  let rest1 := body.drop intPart.length
  let withFrac : List Char × List Char :=
    match rest1 with
    | '.' :: r => (r.takeWhile isDigit, r.drop (r.takeWhile isDigit).length)
    | r => ([], r)
  if intPart.length + withFrac.1.length = 0 then false
  else
    match withFrac.2 with
    | [] => true
    | e :: r3 => (e = 'e' || e = 'E') && floatExpOk r3

/-- Model of `strconv.ParseFloat(s, 64)` success: an optional sign followed by
a decimal mantissa with optional exponent, or the special forms
`inf`/`infinity` (sign allowed) and `nan` (no sign), case-insensitively.
Hexadecimal float literals and digit-separating underscores, which Go also
accepts, are not modelled; no claim below depends on them. -/
def goParseFloatOk (w : List Char) : Bool :=
  match w with
  | [] => false
  | _ =>
    let signed := w.head? = some '+' || w.head? = some '-'
    let body := if signed then w.drop 1 else w
    let low := body.map asciiLower
    if low = [ 'i', 'n', 'f' ] || low = [ 'i', 'n', 'f', 'i', 'n', 'i', 't', 'y' ] then
      true
    else if !signed && low = [ 'n', 'a', 'n' ] then
      true
    else
      decimalFloatOk body

/-- One text node of `Crawler.countWordsAndNumbers` (`src/crawl.go`): the body
of `if contentStart < contentEnd { ... }`.  The text between the tags is
trimmed and split on single spaces; every token parsing as a float bumps
`Numbers`, and then the source adds `len(words) - count.Numbers` — the
*running total* of numbers, not this node's — to `Words`. -/
def cwanNode (a : Array Char) (cs ce : Nat) (cnt : Count) : Count :=
  let text := goTrimSpace ((a.extract cs ce).toList)
  let ws := splitOnCharL ' ' text
  if ws.length != 0 && text.length != 0 then
    let nums : Int := ((ws.filter goParseFloatOk).length : Int)
    let numbers2 := cnt.numbers + nums
    ⟨cnt.words + (ws.length : Int) - numbers2, numbers2⟩
  else cnt

/-- The index loop of `Crawler.countWordsAndNumbers`, with fuel standing in
for the loop bound (`countWordsAndNumbers` supplies fuel covering the whole
input).  On `'<'` the source sets `contentEnd = i - 1` when `i ≠ 0` (dropping
the character just before the tag) and processes the node when
`contentStart < contentEnd`; on `'>'` it sets `contentStart = i + 1`. -/
def cwanLoop (a : Array Char) : Nat → Nat → Nat → Nat → Count → Count
  | 0, _, _, _, cnt => cnt
  | fuel + 1, i, cs, ce, cnt =>
    if h : i < a.size then
      let c := a.get ⟨i, h⟩
      let ce2 := if c = '<' then (if i ≠ 0 then i - 1 else ce) else ce
      let cnt2 := if c = '<' then (if cs < ce2 then cwanNode a cs ce2 cnt else cnt) else cnt
      let cs2 := if c = '>' then i + 1 else cs
      cwanLoop a fuel (i + 1) cs2 ce2 cnt2
    else cnt

/-- Embeds `Crawler.countWordsAndNumbers` (`src/crawl.go`), minus the final
`writeMap` which the caller (`crawlerLookup`) performs. -/
def countWordsAndNumbers (html : List Char) : Count :=
  cwanLoop html.toArray html.length 0 0 0 ⟨0, 0⟩

/-- Does the pattern `pat` occur in `a` starting at index `i`?  Mirrors a Go
slice comparison `html[i:i+len(pat)] == pat`. -/
def substrAt (a : Array Char) (i : Nat) (pat : List Char) : Bool :=
  (a.extract i (i + pat.length)).toList == pat

/-- The inner loop of `Crawler.getHTMLBodyString` searching from `j` for the
first `'>'` closing the `<body ...>` tag; yields `j' + 1` for the first
`html[j'] = '>'`, or `none` when the loop runs off the end (in which case the
source leaves `bodyStart` unchanged). -/
def findTagClose (a : Array Char) : Nat → Nat → Option Nat
  | _, 0 => none
  | j, fuel + 1 =>
    if h : j < a.size then
      if a.get ⟨j, h⟩ = '>' then some (j + 1) else findTagClose a (j + 1) fuel
    else none

/-- The scanning loop of `Crawler.getHTMLBodyString` computing
`(bodyStart, bodyEnd)`: at every `i` with `i + 6 < len` and
`html[i:i+5] == "<body"` it recomputes `bodyStart` from the following `'>'`,
and at every `i` with `i + 7 < len` (strict — a document ending exactly in
`</body>` is missed) and `html[i:i+7] == "</body>"` it sets `bodyEnd = i`. -/
def bodyBounds (a : Array Char) : Nat × Nat :=
  (List.range a.size).foldl
    (fun p i =>
      let p1 :=
        if i + 6 < a.size then
          if substrAt a i (("<body").toList) then
            match findTagClose a (i + 5) a.size with
            | some k => (k, p.2)
            | none => p
          else p
        else p
      if i + 7 < a.size then
        if substrAt a i (("</body>").toList) then (p1.1, i) else p1
      else p1)
    (0, 0)

/-- Index of the first `'\n'` in `cs` (or `cs.length` when there is none);
bounds the reach of a Go regexp `.`, which does not match newlines. -/
def firstNLIdx : List Char → Nat
  | [] => 0
  | c :: cs => if c = '\n' then 0 else firstNLIdx cs + 1

/-- Greedy-match helper: the largest `q` such that `closer` occurs at offset
`q` of `rest` with no newline among the first `q` characters.  This is where
the *greedy* `(.*)` of the source regexes `<script(.*)<\/script>` and
`<style(.*)<\/style>` reaches: up to the **last** closing tag on the same
newline-free stretch. -/
def lastCloserPos (closer rest : List Char) : Option Nat :=
  ((List.range (firstNLIdx rest + 1)).filter
    (fun q => closer.isPrefixOf (rest.drop q))).getLast?

/-- Length of the greedy regex match `opener(.*)closer` anchored at the head
of `s`, when there is one. -/
def greedyMatchLen (opener closer s : List Char) : Option Nat :=
  if opener.isPrefixOf s then
    match lastCloserPos closer (s.drop opener.length) with
    | some q => some (opener.length + q + closer.length)
    | none => none
  else none

/-- Model of Go `regexp.ReplaceAllString(s, "")` for the source patterns
`<script(.*)<\/script>` / `<style(.*)<\/style>`: scan left to right, and at
the first position where the greedy pattern matches, delete the whole match
and continue after it. -/
def greedyStripAux (opener closer : List Char) : Nat → List Char → List Char
  | 0, _ => []
  | _, [] => []
  | fuel + 1, c :: cs =>
    match greedyMatchLen opener closer (c :: cs) with
    | some len => greedyStripAux opener closer fuel ((c :: cs).drop len)
    | none => c :: greedyStripAux opener closer fuel cs

/-- Remove every greedy `opener(.*)closer` match from `s`. -/
def greedyStrip (opener closer s : List Char) : List Char :=
  greedyStripAux opener closer s.length s

/-- Embeds `Crawler.getHTMLBodyString` (`src/crawl.go`): compute the body
bounds, slice, then strip `<script ...>`/`<style ...>` regions with the
greedy regexes above.  The Go slice `html[bodyStart:bodyEnd]` panics when
`bodyStart > bodyEnd` (e.g. a `<body>` with no properly-followed `</body>`);
the model yields `[]` there, a case no claim depends on. -/
def getHTMLBodyString (html : List Char) : List Char :=
  let a := html.toArray
  let p := bodyBounds a
  let body := (a.extract p.1 p.2).toList
  let r1 := greedyStrip (("<script").toList) (("</script>").toList) body
  greedyStrip (("<style").toList) (("</style>").toList) r1

/-- Host and path of a parsed URL; the projection of Go's `url.URL` that
`GetNextURLs` and `PrintResults` actually use. -/
structure GoURL where
  host : List Char
  path : List Char
deriving DecidableEq, Repr

/-- Scheme validity for Go `net/url`: a letter followed by letters, digits,
`+`, `-` or `.`. -/
def schemeOk (s : List Char) : Bool :=
  match s with
  | [] => false
  | c :: rest =>
    (('a' ≤ c && c ≤ 'z') || ('A' ≤ c && c ≤ 'Z')) &&
      rest.all (fun d =>
        ('a' ≤ d && d ≤ 'z') || ('A' ≤ d && d ≤ 'Z') || isDigit d ||
        d = '+' || d = '-' || d = '.')

/-- Authority-and-path part of an absolute `http(s)://` URL: the authority
runs to the first `/`, `?` or `#`, the path from there to the first `?` or
`#`. -/
def parseAuthority (rest : List Char) : Option GoURL :=
  let auth := rest.takeWhile (fun c => c ≠ '/' && c ≠ '?' && c ≠ '#')
  let after := rest.drop auth.length
  let path := after.takeWhile (fun c => c ≠ '?' && c ≠ '#')
  if auth.contains ' ' then none else some ⟨auth, path⟩

/-- Model of Go `url.Parse` restricted to what `GetNextURLs` consults: the
`Host` and `Path` fields and whether parsing errors.  Absolute `http(s)://`
URLs are split into authority and path; a scheme-less string is a relative
reference with empty host, erroring exactly when its first path segment
contains a colon not preceded by a valid scheme (Go's "first path segment in
URL cannot contain colon" / "missing protocol scheme"); `scheme:opaque` forms
parse with empty host and path.  Percent-escape validation, userinfo/port
splitting and host-character checks beyond spaces are not modelled; no input
reached by the claims exercises them. -/
def goURLParse (s : List Char) : Option GoURL :=
  if (("https://").toList).isPrefixOf s then parseAuthority (s.drop 8)
  else if (("http://").toList).isPrefixOf s then parseAuthority (s.drop 7)
  else
    let seg := s.takeWhile (fun c => c ≠ '/')
    if seg.contains ':' then
      let sch := seg.takeWhile (fun c => c ≠ ':')
      if schemeOk sch then some ⟨[], []⟩ else none
    else some ⟨[], s⟩

/-- Model of Go `path.Clean`: split on `/`, drop empty and `.` segments,
resolve `..`, and restore rootedness (empty result becomes `.`; a rooted
path keeps its leading `/`). -/
def goPathClean (s : List Char) : List Char :=
  if s.isEmpty then [ '.' ]
  else
    let rooted := s.head? = some '/'
    let stack := (splitOnCharL '/' s).foldl
      (fun (stack : List (List Char)) seg =>
        if seg = [] || seg = [ '.' ] then stack
        else if seg = [ '.', '.' ] then
          match stack with
          | [] => if rooted then [] else [ [ '.', '.' ] ]
          | top :: rest => if top = [ '.', '.' ] then seg :: stack else rest
        else seg :: stack)
      []
    let joined := List.intercalate [ '/' ] stack.reverse
    if rooted then '/' :: joined
    else if joined.isEmpty then [ '.' ] else joined

/-- Model of Go `path.Join(a, b)`: skip empty elements, join the rest with
`/`, and `Clean` the result; all-empty input yields the empty string
uncleaned. -/
def goPathJoin (a b : List Char) : List Char :=
  if a.isEmpty && b.isEmpty then []
  else if a.isEmpty then goPathClean b
  else if b.isEmpty then goPathClean a
  else goPathClean (a ++ '/' :: b)

/-- Scan for the closing `"` of an `href="` occurrence: `some (captured,
rest-after-quote)`, or `none` when a newline or the end of input intervenes
(Go's `.` in `href="(.*?)"` does not match newlines, so no match starts
here). -/
def takeHrefValue : List Char → Option (List Char × List Char)
  | [] => none
  | c :: cs =>
    if c = '"' then some ([], cs)
    else if c = '\n' then none
    else
      match takeHrefValue cs with
      | some (cap, rest) => some (c :: cap, rest)
      | none => none

/-- Scanning loop modelling `regexp.MustCompile('href="(.*?)"').FindAllString`:
leftmost non-overlapping matches of `href="` up to the next `"`.  The source
then slices each full match with `href[6:len(href)-1]`, which recovers
exactly the captured value returned here. -/
def extractHrefsAux : Nat → List Char → List (List Char)
  | 0, _ => []
  | _, [] => []
  | fuel + 1, c :: cs =>
    if (("href=\"").toList).isPrefixOf (c :: cs) then
      match takeHrefValue ((c :: cs).drop 6) with
      | some (cap, rest) => cap :: extractHrefsAux fuel rest
      | none => extractHrefsAux fuel cs
    else extractHrefsAux fuel cs

/-- All `href="..."` values of an HTML fragment, in order of occurrence. -/
def extractHrefs (s : List Char) : List (List Char) :=
  extractHrefsAux s.length s

/-- Embeds the per-href body of the loop in `Crawler.GetNextURLs`
(`src/crawl.go`): `none` models `continue` (the href is dropped), `some key`
the insertion of `fmt.Sprintf("https://%s", path.Join(url.Host, url.Path))`
into the result map. -/
def processHref (host : String) (captured : List Char) : Option String :=
  let step1 : Option (List Char) :=
    if (("http").toList).isPrefixOf captured then
      match goURLParse captured with
      | none => none
      | some u => if String.mk u.host ≠ host then none else some captured
    else
      match goURLParse captured with
      | none => some ((("https://").toList) ++ goPathJoin (host.toList) captured)
      | some _ => some ((("https://").toList) ++ captured)
  match step1 with
  | none => none
  | some t =>
    match goURLParse t with
    | none => none
    | some u => some (String.mk ((("https://").toList) ++ goPathJoin u.host u.path))

/-- Deduplicate, keeping the first occurrence; determinizes the source's
`map[string]struct{}` whose iteration order is unspecified.  All claims are
stated order-insensitively (membership and cardinality). -/
def dedupFirst (l : List String) : List String :=
  l.foldl (fun acc u => if u ∈ acc then acc else acc ++ [u]) []

/-- Embeds `Crawler.GetNextURLs` (`src/crawl.go`): extract every `href="..."`
value, process each against the crawl host, and return the distinct resulting
canonical URLs. -/
def getNextURLs (host : String) (htmlBody : List Char) : List String :=
  dedupFirst ((extractHrefs htmlBody).filterMap (processHref host))

/-- Embeds `Crawler.preProcessHTMLString` (`src/crawl.go`): an empty string or
one not starting with `'<'` is silently ignored (empty body, no links);
otherwise isolate the body, delete newlines, and extract next URLs. -/
def preProcessHTMLString (host : String) (html : List Char) : List Char × List String :=
  if html.head? = some '<' then
    let body := getHTMLBodyString html
    let body2 := body.filter (fun c => c ≠ '\n')
    (body2, getNextURLs host body2)
  else ([], [])

/-- Result of one `Crawler.Lookup` call: the returned next-URL slice and
error, the map contents after the call, and whether an HTTP request was
issued (instrumentation for the no-fetch claims). -/
structure LookupRes where
  next : List String
  err : Option String
  map : VisitedMap
  fetched : Bool
deriving DecidableEq, Repr

/-- Embeds `Crawler.Lookup` (`src/crawl.go`) as a sequential function: the
HTTP request construction, round-trip and body read are bundled into the
fetch oracle.  Mirrors the source's control flow: early return when the URL
is already in the map; placeholder write; depth check before fetching; fetch;
`countWordsAndNumbers` write; and the `depth + 1` pruning of returned
links. -/
def crawlerLookup (o : Opts) (host : String) (fetch : String → Except String (List Char))
    (m : VisitedMap) (url : String) (depth : Int) : LookupRes :=
  match readMap m url with
  | some _ => ⟨[], none, m, false⟩
  | none =>
    let m1 := writeMap m url ⟨0, 0⟩
    if o.ExceedsMaxDepth depth then ⟨[], none, m1, false⟩
    else
      match fetch url with
      | Except.error e => ⟨[], some e, m1, true⟩
      | Except.ok body =>
        let pp := preProcessHTMLString host body
        let m2 := writeMap m1 url (countWordsAndNumbers pp.1)
        if o.ExceedsMaxDepth (depth + 1) then ⟨[], none, m2, true⟩
        else ⟨pp.2, none, m2, true⟩

/-- The integer a worker sends on `ResChan` for one processed item
(`Crawler.processURLs`, `src/crawl.go`): `0` on a lookup error, otherwise
`len(nextURLs)` — the item's fan-out. -/
def workerResChanMsg (r : LookupRes) : Int :=
  match r.err with
  | some _ => 0
  | none => (r.next.length : Int)

/-! ### Interleaving model of the claim phase of `Lookup`

`Crawler.Lookup` begins with `c.readMap(url)` and, when absent,
`c.writeMap(url, &Count{})`.  Each of those two calls locks and unlocks the
mutex *separately*, so between a worker's read and its write another worker
may run.  The model below makes each mutex-protected call one atomic step of
a worker and lets a schedule interleave two workers racing the same URL. -/

/-- Progress of one worker through the claim phase of `Lookup`:
not yet started; performed `readMap` (remembering the `ok` it observed);
finished, recording whether it fell through to the fetch (`ok` was false). -/
inductive WPhase where
  | start : WPhase
  | checked : Bool → WPhase
  | finished : Bool → WPhase
deriving DecidableEq, Repr

/-- One atomic (mutex-protected) step of a worker in the claim phase: the
`readMap` membership test, then — only when the URL was absent — the
placeholder `writeMap`; a worker that observed the URL present returns
without fetching. -/
def phaseStep (m : VisitedMap) (url : String) : WPhase → WPhase × VisitedMap
  | WPhase.start => (WPhase.checked (readMap m url).isSome, m)
  | WPhase.checked ok =>
    if ok then (WPhase.finished false, m)
    else (WPhase.finished true, writeMap m url ⟨0, 0⟩)
  | WPhase.finished f => (WPhase.finished f, m)

/-- Two workers racing `Lookup` on the same URL over a shared map. -/
structure RaceState where
  m : VisitedMap
  w1 : WPhase
  w2 : WPhase
deriving DecidableEq, Repr

/-- Let the scheduled worker (`true` = worker 1) take one atomic step. -/
def raceStep (url : String) (s : RaceState) (pick : Bool) : RaceState :=
  if pick then
    let r := phaseStep s.m url s.w1
    ⟨r.2, r.1, s.w2⟩
  else
    let r := phaseStep s.m url s.w2
    ⟨r.2, s.w1, r.1⟩

/-- Run a schedule of worker picks from a given race state. -/
def raceRun (url : String) (sched : List Bool) (s : RaceState) : RaceState :=
  sched.foldl (raceStep url) s

/-! ### Protocol model of the completion detector

`Crawler.waitUntilDone` seeds `countTotalRequests = 1`, and for every message
`res` on `ResChan` performs `countTotalRequests += res; requestsDone++` and
stops when the two are equal.  A worker sends exactly one message per work
item, carrying that item's fan-out.  The model below couples one item's
processing (dedup against the visited set, fan-out into the queue) with the
delivery of its message as one step of the protocol. -/

/-- The two counters of `Crawler.waitUntilDone`. -/
structure Detector where
  total : Int
  done : Int
deriving DecidableEq, Repr

/-- Receiving one `ResChan` message: `countTotalRequests += res;
requestsDone++`. -/
def detectorStep (d : Detector) (res : Int) : Detector :=
  ⟨d.total + res, d.done + 1⟩

/-- Whole-system state: visited URLs, queued work items, detector counters. -/
structure SysSt where
  visited : List String
  queue : List String
  det : Detector
deriving DecidableEq, Repr

/-- One work item processed end to end: an already-visited URL is a terminal
no-op completing with fan-out 0; a fresh URL is claimed and its links `succ u`
enqueued, completing with fan-out `|succ u|`.  The fan-out reaches the
detector in the same message as the completion, as in `processURLs`. -/
def sysStep (succ : String → List String) (s : SysSt) : SysSt :=
  match s.queue with
  | [] => s
  | u :: q =>
    if u ∈ s.visited then ⟨s.visited, q, detectorStep s.det 0⟩
    else ⟨u :: s.visited, q ++ succ u, detectorStep s.det ((succ u).length : Int)⟩

/-- The collector loop of `waitUntilDone`: stop as soon as
`requestsDone == countTotalRequests`, else process the next item. -/
def sysRun (succ : String → List String) : Nat → SysSt → SysSt
  | 0, s => s
  | n + 1, s =>
    if s.det.done = s.det.total then s else sysRun succ n (sysStep succ s)

/-- The counting invariant of the protocol: outstanding work
(`produced − completed`) equals the queue length. -/
def sysInv (s : SysSt) : Prop :=
  s.det.total - s.det.done = (s.queue.length : Int)

/-- Initial state: the seed URL queued, `countTotalRequests` seeded at 1. -/
def initSys (seed : String) : SysSt :=
  ⟨[], [seed], ⟨1, 0⟩⟩

/-- Termination measure: unvisited URLs of the (finite) universe weighted by
the fan-out bound, plus the queue length. -/
def sysMeasure (univ : Finset String) (B : Nat) (s : SysSt) : Nat :=
  (univ.filter (fun u => u ∉ s.visited)).card * (B + 1) + s.queue.length

/-! ### Spec-side analyzer definitions (for comparison only)

The claims about `countWordsAndNumbers` describe the counts through a clean
tokenizer; the definitions below transcribe that description, to be compared
with the embedded source function. -/

/-- Fuel-driven worker for `specStripTags`. -/
def specStripTagsAux : Nat → List Char → List Char
  | 0, _ => []
  | _, [] => []
  | fuel + 1, c :: cs =>
    if c = '<' then specStripTagsAux fuel ((cs.dropWhile (fun d => d ≠ '>')).drop 1)
    else c :: specStripTagsAux fuel cs

/-- Modelled from the spec: "remove every remaining `<...>` markup tag,
leaving the flattened visible text". -/
def specStripTags (cs : List Char) : List Char :=
  specStripTagsAux cs.length cs

/-- Modelled from the spec: tokenization — trim the flattened text and split
it on single spaces; an empty text yields no tokens. -/
def specTokens (body : List Char) : List (List Char) :=
  let text := goTrimSpace (specStripTags body)
  if text.isEmpty then [] else splitOnCharL ' ' text

/-- Modelled from the spec: a token is a number iff it parses under the
floating-point lexical grammar. -/
def specNumberCount (body : List Char) : Int :=
  (((specTokens body).filter goParseFloatOk).length : Int)

/-- Modelled from the spec: `wordCount = tokenCount − numberCount`. -/
def specWordCount (body : List Char) : Int :=
  ((specTokens body).length : Int) - specNumberCount body

/-! ## Theorems -/

/-- Reading back a key just written yields the written value. -/
theorem readMap_writeMap_self (m : VisitedMap) (k : String) (v : Count) :
    readMap (writeMap m k v) k = some v := by
  induction m with
  | nil => simp [readMap, writeMap]
  | cons kv rest ih =>
    obtain ⟨k1, v1⟩ := kv
    by_cases h : k1 = k <;> simp [readMap, writeMap, h, ih]

/-- C1: the claim phase of `Lookup` is **not** exactly-once.  Each of
`readMap` and `writeMap` locks the mutex separately, so under the
interleaving read₁, read₂, write₁, write₂ both workers observe the URL as
absent and both fall through to the fetch: the final race state has both
workers `finished true` (i.e. both proceed to fetch), refuting "exactly one
of them performs the placeholder insertion and proceeds to fetch". -/
theorem lookup_claim_race_both_fetch :
    (raceRun "u" [true, false, true, false]
        ⟨[], WPhase.start, WPhase.start⟩).w1 = WPhase.finished true ∧
    (raceRun "u" [true, false, true, false]
        ⟨[], WPhase.start, WPhase.start⟩).w2 = WPhase.finished true := by
  constructor <;> rfl

/-- C2: on the spec's own test fragment with host `google.com`, the embedded
`GetNextURLs` returns **five** distinct URLs — including the cross-host
`https://something.com` and the malformed `https:///x`, `https:///y` — and
does **not** return the expected `https://google.com/y`; the claimed
three-element result set is refuted. -/
theorem getNextURLs_test_fragment_five_urls :
    getNextURLs "google.com"
        (("href=\"/x\" href=\"something.com\" href=\"google.com\" href=\"google.com/x\" href=\"/y\"").toList) =
      ["https:///x", "https://something.com", "https://google.com",
        "https://google.com/x", "https:///y"] ∧
    "https://google.com/y" ∉
      getNextURLs "google.com"
        (("href=\"/x\" href=\"something.com\" href=\"google.com\" href=\"google.com/x\" href=\"/y\"").toList) := by
  constructor
  · rfl
  · decide

/-- C3: link extraction does **not** keep only same-host URLs: on the test
fragment with crawl host `google.com`, the output contains
`https://something.com`, whose authority parses to `something.com ≠
google.com` (the scheme-less `else` branch of `GetNextURLs` never compares
hosts). -/
theorem getNextURLs_crosshost_url_escapes :
    "https://something.com" ∈
      getNextURLs "google.com"
        (("href=\"/x\" href=\"something.com\" href=\"google.com\" href=\"google.com/x\" href=\"/y\"").toList) ∧
    goURLParse (("https://something.com").toList) =
      some ⟨("something.com").toList, []⟩ ∧
    ("something.com" : String) ≠ "google.com" := by
  refine ⟨by decide, by rfl, by decide⟩

/-- C4: the recorded counts do not satisfy `wordCount = tokenCount −
numberCount`.  On the body `<p>1 </p><p>b </p>` the source records
`words = 0, numbers = 1` — `count.Words += len(words) - count.Numbers`
subtracts the *cumulative* number count at every text node — while the
claimed identity over the flattened text (tokens `1` and `b`) gives
`wordCount = 2 − 1 = 1`. -/
theorem countWordsAndNumbers_breaks_token_identity :
    countWordsAndNumbers (("<p>1 </p><p>b </p>").toList) = ⟨0, 1⟩ ∧
    specWordCount (("<p>1 </p><p>b </p>").toList) = 1 ∧
    specNumberCount (("<p>1 </p><p>b </p>").toList) = 1 ∧
    (countWordsAndNumbers (("<p>1 </p><p>b </p>").toList)).words ≠
      specWordCount (("<p>1 </p><p>b </p>").toList) := by
  refine ⟨by rfl, by rfl, by rfl, by decide⟩

/-- C5: there is no feed-document fallback.  On a document that begins with
an `<?xml` declaration, has no `<body>` tag, visible text and a same-host
href, the embedded pre-processing returns an **empty** body and **no** links
(`getHTMLBodyString` slices `html[0:0]`), even though running link extraction
on the whole document would find `https://h.com/x`; the claim that the whole
document is treated as the body is refuted. -/
theorem preProcess_xml_document_empty_body :
    preProcessHTMLString "h.com"
        (("<?xml version=\"1.0\"?><a href=\"https://h.com/x\">one two</a>").toList) = ([], []) ∧
    getNextURLs "h.com"
        (("<?xml version=\"1.0\"?><a href=\"https://h.com/x\">one two</a>").toList) =
      ["https://h.com/x"] := by
  constructor <;> rfl

/-- C6: script stripping is **greedy**, not non-greedy: the source regex is
`<script(.*)<\/script>`.  On a body holding two script blocks with visible
text ` b ` between them, the whole span from the first `<script` to the last
`</script>` is deleted, leaving `a  c` — the text between the blocks is
removed, refuting "text outside those blocks is not removed". -/
theorem getHTMLBodyString_greedy_strip_removes_between :
    getHTMLBodyString
        (("<html><body>a <script>x</script> b <script>y</script> c</body></html>").toList) =
      ("a  c").toList := by
  rfl

/-- C7: a URL looked up at depth `d > maxDepth` triggers no HTTP fetch, no
error and zero discovered links, and (when not already visited) is claimed
and recorded with the zero-valued placeholder `Count{}`. -/
theorem lookup_beyond_maxdepth_no_fetch (o : Opts) (host : String)
    (fetch : String → Except String (List Char)) (m : VisitedMap) (url : String)
    (depth : Int) (h : o.maxDepth < depth) :
    (crawlerLookup o host fetch m url depth).fetched = false ∧
    (crawlerLookup o host fetch m url depth).err = none ∧
    (crawlerLookup o host fetch m url depth).next = [] ∧
    (readMap m url = none →
      (crawlerLookup o host fetch m url depth).map = writeMap m url ⟨0, 0⟩) := by
  cases hm : readMap m url with
  | some v => simp [crawlerLookup, hm]
  | none => simp [crawlerLookup, hm, Opts.ExceedsMaxDepth, h]

/-- Witness for `lookup_beyond_maxdepth_no_fetch` at `maxDepth = 0`,
`depth = 1`, an empty map and a failing fetch oracle. -/
theorem lookup_beyond_maxdepth_no_fetch_witness :
    (⟨1, 0, false, 0⟩ : Opts).maxDepth < 1 ∧
    (crawlerLookup ⟨1, 0, false, 0⟩ "h" (fun _ => Except.error "e") [] "u" 1).fetched = false ∧
    (crawlerLookup ⟨1, 0, false, 0⟩ "h" (fun _ => Except.error "e") [] "u" 1).map =
      writeMap [] "u" ⟨0, 0⟩ := by
  have h := lookup_beyond_maxdepth_no_fetch ⟨1, 0, false, 0⟩ "h"
    (fun _ => Except.error "e") [] "u" 1 (by decide)
  exact ⟨by decide, h.1, h.2.2.2 (by rfl)⟩

/-- C8: when the fetch of a claimed URL fails, `Lookup` returns the error,
the zero-valued placeholder written at claim time is still in the map, the
worker's `ResChan` message (fan-out) is 0, and any later lookup of the same
URL against the resulting map performs no fetch — the URL is permanently
excluded within the run. -/
theorem lookup_fetch_error_no_retry (o : Opts) (host : String)
    (fetch : String → Except String (List Char)) (m : VisitedMap) (url : String)
    (depth : Int) (e : String)
    (h1 : readMap m url = none) (h2 : o.ExceedsMaxDepth depth = false)
    (h3 : fetch url = Except.error e) :
    (crawlerLookup o host fetch m url depth).err = some e ∧
    (crawlerLookup o host fetch m url depth).next = [] ∧
    (crawlerLookup o host fetch m url depth).map = writeMap m url ⟨0, 0⟩ ∧
    workerResChanMsg (crawlerLookup o host fetch m url depth) = 0 ∧
    ∀ (fetch2 : String → Except String (List Char)) (d2 : Int),
      (crawlerLookup o host fetch2
        (crawlerLookup o host fetch m url depth).map url d2).fetched = false := by
  have hres : crawlerLookup o host fetch m url depth =
      ⟨[], some e, writeMap m url ⟨0, 0⟩, true⟩ := by
    simp [crawlerLookup, h1, h2, h3]
  refine ⟨by rw [hres], by rw [hres], by rw [hres], by rw [hres]; rfl, ?_⟩
  intro fetch2 d2
  rw [hres]
  simp [crawlerLookup, readMap_writeMap_self]

/-- Witness for `lookup_fetch_error_no_retry`: fresh URL, depth within
bounds, fetch failing with `boom`; afterwards a second lookup with a
succeeding oracle still does not fetch. -/
theorem lookup_fetch_error_no_retry_witness :
    readMap ([] : VisitedMap) "u" = none ∧
    (⟨1, 2, false, 0⟩ : Opts).ExceedsMaxDepth 0 = false ∧
    (crawlerLookup ⟨1, 2, false, 0⟩ "h" (fun _ => Except.error "boom") [] "u" 0).err =
      some "boom" ∧
    workerResChanMsg
      (crawlerLookup ⟨1, 2, false, 0⟩ "h" (fun _ => Except.error "boom") [] "u" 0) = 0 ∧
    (crawlerLookup ⟨1, 2, false, 0⟩ "h" (fun _ => Except.ok [])
      (crawlerLookup ⟨1, 2, false, 0⟩ "h" (fun _ => Except.error "boom") [] "u" 0).map
      "u" 1).fetched = false := by
  have h := lookup_fetch_error_no_retry ⟨1, 2, false, 0⟩ "h"
    (fun _ => Except.error "boom") [] "u" 0 "boom" (by rfl) (by decide) (by rfl)
  exact ⟨by rfl, by decide, h.1, h.2.2.2.1, h.2.2.2.2 (fun _ => Except.ok []) 1⟩

/-- C10: a fetched body that is empty or does not start with `'<'` is
silently ignored: pre-processing yields an empty body and no links, so the
page is recorded as visited with zero words, zero numbers and zero fan-out,
whatever `<body>` regions or hrefs occur later in the text. -/
theorem preProcess_non_html_zero_result (o : Opts) (host : String)
    (fetch : String → Except String (List Char)) (m : VisitedMap) (url : String)
    (depth : Int) (s : List Char)
    (hhead : s.head? ≠ some '<')
    (h1 : readMap m url = none) (h2 : o.ExceedsMaxDepth depth = false)
    (h3 : fetch url = Except.ok s) :
    preProcessHTMLString host s = ([], []) ∧
    (crawlerLookup o host fetch m url depth).next = [] ∧
    (crawlerLookup o host fetch m url depth).err = none ∧
    readMap (crawlerLookup o host fetch m url depth).map url = some ⟨0, 0⟩ := by
  have hpp : preProcessHTMLString host s = ([], []) := by
    simp [preProcessHTMLString, hhead]
  have hcw : countWordsAndNumbers ([] : List Char) = ⟨0, 0⟩ := rfl
  refine ⟨hpp, ?_, ?_, ?_⟩ <;>
    cases hq : o.ExceedsMaxDepth (depth + 1) <;>
      simp [crawlerLookup, h1, h2, h3, hpp, hq, hcw, readMap_writeMap_self]

/-- Witness for `preProcess_non_html_zero_result`: a body led by a space,
containing both a `<body>` region and an href, is still recorded as a
zero-valued visit with no links. -/
theorem preProcess_non_html_zero_result_witness :
    ((" <body>some words <a href=\"https://h/x\"></a></body>").toList.head? ≠ some '<') ∧
    preProcessHTMLString "h"
      ((" <body>some words <a href=\"https://h/x\"></a></body>").toList) = ([], []) ∧
    (crawlerLookup ⟨1, 3, false, 0⟩ "h"
      (fun _ => Except.ok ((" <body>some words <a href=\"https://h/x\"></a></body>").toList))
      [] "u" 0).next = [] ∧
    readMap (crawlerLookup ⟨1, 3, false, 0⟩ "h"
      (fun _ => Except.ok ((" <body>some words <a href=\"https://h/x\"></a></body>").toList))
      [] "u" 0).map "u" = some ⟨0, 0⟩ := by
  have h := preProcess_non_html_zero_result ⟨1, 3, false, 0⟩ "h"
    (fun _ => Except.ok ((" <body>some words <a href=\"https://h/x\"></a></body>").toList))
    [] "u" 0 ((" <body>some words <a href=\"https://h/x\"></a></body>").toList)
    (by decide) (by rfl) (by decide) (by rfl)
  exact ⟨by decide, h.1, h.2.1, h.2.2.2⟩

/-- When the detector's counters meet, the counting invariant forces the
queue to be empty: no item is outstanding, so nothing can ever be enqueued
again. -/
theorem detector_stop_queue_empty (s : SysSt) (hinv : sysInv s)
    (hdone : s.det.done = s.det.total) : s.queue = [] := by
  unfold sysInv at hinv
  have hz : (s.queue.length : Int) = 0 := by omega
  exact List.length_eq_zero.mp (by exact_mod_cast hz)

/-- One protocol step preserves the counting invariant: the fan-out is added
to `produced` in the same step that increments `completed` and shortens or
extends the queue accordingly. -/
theorem sysInv_sysStep (succ : String → List String) (s : SysSt) (h : sysInv s) :
    sysInv (sysStep succ s) := by
  obtain ⟨vis, queue, det⟩ := s
  cases queue with
  | nil => exact h
  | cons u q =>
    unfold sysInv at h ⊢
    by_cases hv : u ∈ vis <;>
      simp [sysStep, hv, detectorStep] at h ⊢ <;> omega

/-- One protocol step keeps every queued URL inside the finite universe. -/
theorem queue_mem_univ_sysStep (univ : Finset String) (succ : String → List String)
    (s : SysSt) (hq : ∀ u ∈ s.queue, u ∈ univ)
    (hs : ∀ u, ∀ v ∈ succ u, v ∈ univ) :
    ∀ u ∈ (sysStep succ s).queue, u ∈ univ := by
  obtain ⟨vis, queue, det⟩ := s
  cases queue with
  | nil => exact hq
  | cons u q =>
    by_cases hv : u ∈ vis
    · simp only [sysStep, hv, if_pos]
      intro v hvm
      exact hq v (List.mem_cons_of_mem _ hvm)
    · simp only [sysStep, hv, if_neg, not_false_iff]
      intro v hvm
      rcases List.mem_append.mp hvm with h1 | h2
      · exact hq v (List.mem_cons_of_mem _ h1)
      · exact hs u v h2

/-- Marking a fresh universe member visited shrinks the unvisited part of the
universe by exactly one. -/
theorem filter_notMem_cons_card (univ : Finset String) (vis : List String)
    (u : String) (hu : u ∈ univ) (hnv : u ∉ vis) :
    (univ.filter (fun v => v ∉ u :: vis)).card + 1 =
      (univ.filter (fun v => v ∉ vis)).card := by
  have hset : univ.filter (fun v => v ∉ u :: vis) =
      (univ.filter (fun v => v ∉ vis)).erase u := by
    ext v
    simp only [Finset.mem_filter, Finset.mem_erase, List.mem_cons]
    tauto
  have hmem : u ∈ univ.filter (fun v => v ∉ vis) := Finset.mem_filter.mpr ⟨hu, hnv⟩
  have hpos : 0 < (univ.filter (fun v => v ∉ vis)).card :=
    Finset.card_pos.mpr ⟨u, hmem⟩
  rw [hset, Finset.card_erase_of_mem hmem]
  omega

/-- While the queue is nonempty, each protocol step strictly decreases the
termination measure: a duplicate URL only shortens the queue, and a fresh URL
trades one unvisited universe member (weight `B + 1`) for at most `B` new
queue entries. -/
theorem sysMeasure_sysStep_lt (univ : Finset String) (B : Nat)
    (succ : String → List String) (s : SysSt)
    (hqne : s.queue ≠ []) (hq : ∀ u ∈ s.queue, u ∈ univ)
    (hB : ∀ u, (succ u).length ≤ B) :
    sysMeasure univ B (sysStep succ s) < sysMeasure univ B s := by
  obtain ⟨vis, queue, det⟩ := s
  cases queue with
  | nil => simp at hqne
  | cons u q =>
    by_cases hv : u ∈ vis
    · simp [sysMeasure, sysStep, hv, detectorStep]
    · have hu : u ∈ univ := hq u (List.mem_cons_self u q)
      have hcard := filter_notMem_cons_card univ vis u hu hv
      have hL := hB u
      simp only [sysMeasure, sysStep, hv, if_neg, not_false_iff,
        List.length_append, List.length_cons]
      have hprod : (univ.filter (fun v => v ∉ vis)).card * (B + 1) =
          (univ.filter (fun v => v ∉ u :: vis)).card * (B + 1) + (B + 1) := by
        rw [← hcard]; ring
      omega

/-- With enough fuel (any bound on the measure), the collector loop reaches
the stopping condition with an empty queue. -/
theorem sysRun_reaches (univ : Finset String) (B : Nat)
    (succ : String → List String)
    (hs : ∀ u, ∀ v ∈ succ u, v ∈ univ) (hB : ∀ u, (succ u).length ≤ B) :
    ∀ (n : Nat) (s : SysSt), sysInv s → (∀ u ∈ s.queue, u ∈ univ) →
      sysMeasure univ B s ≤ n →
      (sysRun succ n s).det.done = (sysRun succ n s).det.total ∧
        (sysRun succ n s).queue = [] := by
  intro n
  induction n with
  | zero =>
    intro s hinv hq hm
    have hqe : s.queue = [] := by
      have hlen : s.queue.length = 0 := by
        unfold sysMeasure at hm; omega
      exact List.length_eq_zero.mp hlen
    have hdt : s.det.done = s.det.total := by
      unfold sysInv at hinv
      rw [hqe] at hinv
      simp at hinv
      omega
    exact ⟨hdt, hqe⟩
  | succ n ih =>
    intro s hinv hq hm
    by_cases hd : s.det.done = s.det.total
    · have hqe := detector_stop_queue_empty s hinv hd
      have hid : sysRun succ (n + 1) s = s := by simp [sysRun, hd]
      rw [hid]
      exact ⟨hd, hqe⟩
    · have hqne : s.queue ≠ [] := by
        intro hqe
        apply hd
        unfold sysInv at hinv
        rw [hqe] at hinv
        simp at hinv
        omega
      have hlt := sysMeasure_sysStep_lt univ B succ s hqne hq hB
      have h1 := sysInv_sysStep succ s hinv
      have h2 := queue_mem_univ_sysStep univ succ s hq hs
      have hm2 : sysMeasure univ B (sysStep succ s) ≤ n := by omega
      have hres := ih (sysStep succ s) h1 h2 hm2
      simpa [sysRun, hd] using hres

/-- C9: the completion-detection protocol of `waitUntilDone` / `processURLs`
— `produced` seeded at 1, every completion delivering its fan-out together
with one completion increment as a single message, the collector stopping
when `completed = produced` — stops only in states where the queue is empty
(so nothing can ever be enqueued again), and on every finite link graph
(universe `univ`, per-URL fan-out bound `B`, cycles allowed) the run
reaches that stopped state within `|univ| * (B + 1) + 1` messages. -/
theorem completion_detection_sound_and_terminating
    (univ : Finset String) (B : Nat) (succ : String → List String) (seed : String)
    (hseed : seed ∈ univ) (hsucc : ∀ u, ∀ v ∈ succ u, v ∈ univ)
    (hB : ∀ u, (succ u).length ≤ B) :
    (∀ s : SysSt, sysInv s → s.det.done = s.det.total → s.queue = []) ∧
    ((sysRun succ (univ.card * (B + 1) + 1) (initSys seed)).det.done =
        (sysRun succ (univ.card * (B + 1) + 1) (initSys seed)).det.total ∧
      (sysRun succ (univ.card * (B + 1) + 1) (initSys seed)).queue = []) := by
  constructor
  · exact fun s hinv hd => detector_stop_queue_empty s hinv hd
  · apply sysRun_reaches univ B succ hsucc hB
    · unfold sysInv initSys
      simp
    · intro u hu
      unfold initSys at hu
      simp at hu
      rw [hu]
      exact hseed
    · unfold sysMeasure initSys
      simp only [List.length_singleton]
      have h1 : (univ.filter (fun u => u ∉ ([] : List String))).card ≤ univ.card :=
        Finset.card_filter_le _ _
      exact Nat.add_le_add_right (Nat.mul_le_mul_right _ h1) 1

/-- Witness for `completion_detection_sound_and_terminating`: the two-URL
universe `{a, b}` with the cyclic link graph `a ↦ [b, a]`, `b ↦ []`. -/
theorem completion_detection_sound_and_terminating_witness :
    ("a" : String) ∈ ({"a", "b"} : Finset String) ∧
    (sysRun (fun u => if u = "a" then ["b", "a"] else [])
        (({"a", "b"} : Finset String).card * (2 + 1) + 1) (initSys "a")).det.done =
      (sysRun (fun u => if u = "a" then ["b", "a"] else [])
        (({"a", "b"} : Finset String).card * (2 + 1) + 1) (initSys "a")).det.total ∧
    (sysRun (fun u => if u = "a" then ["b", "a"] else [])
        (({"a", "b"} : Finset String).card * (2 + 1) + 1) (initSys "a")).queue = [] := by
  have h := completion_detection_sound_and_terminating ({"a", "b"} : Finset String) 2
    (fun u => if u = "a" then ["b", "a"] else []) "a" (by decide)
    (by
      intro u v hv
      by_cases hu : u = "a"
      · simp only [hu, if_pos] at hv
        simp only [List.mem_cons, List.mem_singleton, List.not_mem_nil, or_false] at hv
        rcases hv with rfl | rfl <;> decide
      · simp [hu] at hv)
    (by
      intro u
      by_cases hu : u = "a" <;> simp [hu])
  exact ⟨by decide, h.2.1, h.2.2⟩

end Crawl
